import Mathlib

/-
  Verification development for chd.c, a hexdump-like utility for Unicode
  characters (dump direction: characters to hex dump lines; undump
  direction: dump lines back to characters/bytes).

  Shallow embedding conventions:
  * A wide character (wchar_t value) is a Nat.  Raw bytes produced for
    invalid input sequences carry the flag bit rawbyte = 0x10000000, as in
    the source.
  * Text (dump lines) is List Nat of wide-character values; byte output of
    the undump direction is List Nat of byte values.
  * The C library collaborators (wcwidth, wcrtomb, the UTF-8 decoding done
    by fgetwc, swscanf, strtol) are modelled for a UTF-8 locale; each model
    carries a doc comment stating what it reproduces.
  * Loops are written as fuel-based structural recursions so that every
    definition evaluates inside the kernel; the fuel supplied by the
    wrapper definitions is always sufficient (each iteration consumes at
    least one element).
-/

namespace Chd

/-- Unicode control pictures start (static int const ctlpics = 0x2400). -/
def ctlpics : Nat := 0x2400

/-- Unicode replacement character (static int const replacechar = 0xFFFD). -/
def replacechar : Nat := 0xFFFD

/-- Flag marking a raw byte value (static int const rawbyte = 0x10000000). -/
def rawbyte : Nat := 0x10000000

/-- INT_MAX on the target platform (32-bit int). -/
def intMax : Nat := 2147483647

/-- Default number of characters per dump line (static int linesize = 8). -/
def linesizeDefault : Nat := 8

/-- Uppercase hexadecimal digit, as printed by the %X conversions. -/
def hexDigit (n : Nat) : Nat := if n < 10 then 48 + n else 55 + n

/-- Digits of n in base 16, most significant first (fuel-based). -/
def toHexAux : Nat → Nat → List Nat
  | 0, _ => []
  | fuel + 1, n =>
    if n < 16 then [hexDigit n] else toHexAux fuel (n / 16) ++ [hexDigit (n % 16)]

/-- The digits printf %X prints for n (at least one digit). -/
def toHex (n : Nat) : List Nat := toHexAux (n + 1) n

/-- Zero padding to a minimum width, as in %02X / %08X. -/
def zeroPad (w : Nat) (l : List Nat) : List Nat :=
  List.replicate (w - l.length) 48 ++ l

/-- Space padding to a minimum width (right justification), as in %6X. -/
def spacePad (w : Nat) (l : List Nat) : List Nat :=
  List.replicate (w - l.length) 32 ++ l

/-- Wide (two-column) character ranges. Modelled from the C library:
the wcwidth(3) double-width ranges of a UTF-8 locale (abridged to the
standard East Asian wide/fullwidth blocks). -/
def isWide (v : Nat) : Bool :=
  (0x1100 ≤ v && v ≤ 0x115F) || (0x2E80 ≤ v && v ≤ 0x303E) ||
  (0x3041 ≤ v && v ≤ 0x33FF) || (0x3400 ≤ v && v ≤ 0x4DBF) ||
  (0x4E00 ≤ v && v ≤ 0x9FFF) || (0xA000 ≤ v && v ≤ 0xA4CF) ||
  (0xAC00 ≤ v && v ≤ 0xD7A3) || (0xF900 ≤ v && v ≤ 0xFAFF) ||
  (0xFE30 ≤ v && v ≤ 0xFE4F) || (0xFF00 ≤ v && v ≤ 0xFF60) ||
  (0xFFE0 ≤ v && v ≤ 0xFFE6) || (0x20000 ≤ v && v ≤ 0x2FFFD) ||
  (0x30000 ≤ v && v ≤ 0x3FFFD)

/-- Zero-width (combining) ranges. Modelled from the C library: the
wcwidth(3) zero-width combining ranges of a UTF-8 locale (abridged). -/
def isCombining (v : Nat) : Bool :=
  (0x0300 ≤ v && v ≤ 0x036F) || (0x20D0 ≤ v && v ≤ 0x20FF) ||
  (0xFE20 ≤ v && v ≤ 0xFE2F)

/-- Modelled from the C library: wcwidth(3) in a UTF-8 locale.  Returns 0
for the null character, -1 for control characters and for values that are
not printable characters (in particular every value above 0x10FFFF, which
covers all rawbyte-flagged values), 2 for wide characters, 0 for combining
marks and 1 otherwise. -/
def wcwidth (v : Nat) : Int :=
  if v = 0 then 0
  else if v < 0x20 then -1
  else if v < 0x7F then 1
  else if v < 0xA0 then -1
  else if v > 0x10FFFF then -1
  else if isCombining v then 0
  else if isWide v then 2
  else 1

/-- The 6-column hex field renderdumpline prints for one character:
"    %02X" for values below 256, "   *%02X" for rawbyte-flagged values,
"%6X" otherwise. -/
def dumpfield (v : Nat) : List Nat :=
  if v < 256 then [32, 32, 32, 32] ++ zeroPad 2 (toHex v)
  else if v &&& rawbyte ≠ 0 then [32, 32, 32, 42] ++ zeroPad 2 (toHex (v &&& 0xFF))
  else spacePad 6 (toHex v)

/-- The glyph renderdumpline prints for one character: the character alone
when its display width is 2, the character plus one space when it is 1,
otherwise a control picture (below 0x20) or the replacement character plus
one space. -/
def glyph (v : Nat) : List Nat :=
  if wcwidth v = 2 then [v]
  else if wcwidth v = 1 then [v, 32]
  else [(if v < 0x20 then ctlpics + v else replacechar), 32]

/-- Width of the padding field printed between the hex fields and the glyph
section: wprintf(L"%*s", 6 * (linesize - count) + 5, "").  The width is
computed in int arithmetic; a negative width in %*s means left
justification with the absolute value as width, so the number of spaces
printed is the absolute value. -/
def padWidth (count w : Nat) : Nat :=
  ((6 : Int) * ((w : Int) - (count : Int)) + 5).natAbs

/-- One line of dump output (renderdumpline in the source): the position as
%08X, ": ", one 6-column hex field per character, the alignment padding,
one glyph per character and a newline.  buf holds the count characters of
the line; w is the configured linesize. -/
def renderdumpline (buf : List Nat) (pos : Nat) (w : Nat) : List Nat :=
  zeroPad 8 (toHex pos) ++ [58, 32] ++
  (buf.map dumpfield).flatten ++
  List.replicate (padWidth buf.length w) 32 ++
  (buf.map glyph).flatten ++ [10]

/-- Wide-character values of a string of ASCII text (test helper). -/
def wstr (s : String) : List Nat := s.toList.map Char.toNat

/-- Modelled from the C library: iswspace(3) on the characters that can
occur here (ASCII whitespace). -/
def iswspace (v : Nat) : Bool := v == 32 || (9 ≤ v && v ≤ 13)

/-- Drop the leading run of whitespace, as the scanf %X conversion does
before matching (the skipped characters do not count toward the field
width). -/
def skipws : List Nat → List Nat
  | [] => []
  | c :: rest => if iswspace c then skipws rest else c :: rest

/-- Value of one hexadecimal digit character, if it is one. -/
def hexVal (v : Nat) : Option Nat :=
  if 48 ≤ v ∧ v ≤ 57 then some (v - 48)
  else if 65 ≤ v ∧ v ≤ 70 then some (v - 55)
  else if 97 ≤ v ∧ v ≤ 102 then some (v - 87)
  else none

/-- Greedy scan of at most width hexadecimal digits accumulating their
value; fails (like a scanf matching or input failure) when no digit at all
is found. -/
def scanHexAux : Nat → List Nat → Nat → Nat → Option Nat
  | 0, _, acc, nd => if nd = 0 then none else some acc
  | width + 1, cs, acc, nd =>
    match cs with
    | [] => if nd = 0 then none else some acc
    | c :: rest =>
      match hexVal c with
      | some d => scanHexAux width rest (acc * 16 + d) (nd + 1)
      | none => if nd = 0 then none else some acc

/-- Modelled from the C library: swscanf(p, L"%6X", &ch) with a width
argument.  Skips any amount of leading whitespace (not counted toward the
width), then matches up to width hexadecimal digits; succeeds when at
least one digit is matched.  The optional sign and 0x prefix that the
scanf conversion would also accept are not modelled: neither can occur
adjacent to a hex digit in dump material. -/
def scanHex (width : Nat) (p : List Nat) : Option Nat :=
  scanHexAux width (skipws p) 0 0

/-- Modelled from the C library: swscanf(p, L" *%2X", &ch).  The leading
blank in the format matches any amount of whitespace, the asterisk is
literal, and %2X again skips whitespace before matching up to two hex
digits. -/
def scanRaw (p : List Nat) : Option Nat :=
  match skipws p with
  | 42 :: rest => scanHexAux 2 (skipws rest) 0 0
  | _ => none

/-- Modelled from the C library: wcrtomb(3) in a UTF-8 locale (which has
no shift state).  Returns the byte sequence of a codepoint, or none
(wcrtomb returns (size_t)-1 with EILSEQ) for surrogates and values above
0x10FFFF. -/
def wcrtomb (c : Nat) : Option (List Nat) :=
  if c < 0x80 then some [c]
  else if c < 0x800 then some [0xC0 + c / 64, 0x80 + c % 64]
  else if c < 0x10000 then
    if 0xD800 ≤ c ∧ c ≤ 0xDFFF then none
    else some [0xE0 + c / 4096, 0x80 + c / 64 % 64, 0x80 + c % 64]
  else if c ≤ 0x10FFFF then
    some [0xF0 + c / 0x40000, 0x80 + c / 4096 % 64, 0x80 + c / 64 % 64, 0x80 + c % 64]
  else none

/-- Bytes written for a parsed codepoint: its encoding, or on encoding
failure the encoding of the replacement character (translatedumpline
retries wcrtomb with replacechar when n < 0). -/
def wcrtombOrReplace (c : Nat) : List Nat :=
  match wcrtomb c with
  | some bs => bs
  | none => (wcrtomb replacechar).getD []

/-- The encoding of the null character, n = wcrtomb(out, L'\0', &mbs). -/
def nullBytes : List Nat := (wcrtomb 0).getD []

/-- Bytes written for a parsed raw-byte field: the null encoding with the
byte value stored into its last position (out[n - 1] = ch). -/
def rawSplice (b : Nat) : List Nat := nullBytes.set (nullBytes.length - 1) b

/-- Bytes written by the flush call translatedumpline(NULL):
fwrite(out, wcrtomb(out, L'\0', &mbs) - 1, 1, stdout), i.e. the null
encoding without its final byte (empty in a UTF-8 locale). -/
def flushBytes : List Nat := nullBytes.dropLast

/-- One field of the scan loop in translatedumpline: first try the %6X
codepoint pattern, then the " *%2X" raw-byte pattern; the result is the
byte sequence written for the field, or none when neither matches. -/
def fieldResult (p : List Nat) : Option (List Nat) :=
  match scanHex 6 p with
  | some ch => some (wcrtombOrReplace ch)
  | none =>
    match scanRaw p with
    | some b => some (rawSplice b)
    | none => none

/-- The field loop of translatedumpline: up to w fields, each scanned at a
fixed 6-character step (p += 6), stopping at the first field that matches
neither pattern.  Returns the bytes written and the number of fields
decoded. -/
def scanFields : Nat → List Nat → List Nat × Nat
  | 0, _ => ([], 0)
  | w + 1, p =>
    match fieldResult p with
    | some bs =>
      let r := scanFields w (p.drop 6)
      (bs ++ r.1, r.2 + 1)
    | none => ([], 0)

/-- The separator scan of translatedumpline: advance over the line until a
null or a space; fail (return 0 from the function) when the scan hit the
end or a null, otherwise continue right after the space. -/
def findSep : List Nat → Option (List Nat)
  | [] => none
  | c :: rest =>
    if c = 0 then none
    else if c = 32 then some rest
    else findSep rest

/-- translatedumpline on an actual line (the NULL flush call is modelled
separately by flushBytes): skip the address, then scan up to w fields.
Returns the bytes written and the number of characters output. -/
def translatedumpline (line : List Nat) (w : Nat) : List Nat × Nat :=
  match findSep line with
  | none => ([], 0)
  | some p => scanFields w p

/-- The line-producing loop of dump: repeatedly fill a buffer with up to w
characters (bounded by the remaining budget and the remaining input) and
record one renderdumpline call (buffer, position) per non-empty buffer.
Needs fuel at least the input length; each iteration consumes at least one
character.  With w = 0 the C loop would not terminate, so all statements
about dump assume 1 ≤ w. -/
def dumpLoop : Nat → List Nat → Nat → Nat → Nat → List (List Nat × Nat)
  | 0, _, _, _, _ => []
  | fuel + 1, input, budget, pos, w =>
    let n := min w (min budget input.length)
    if n = 0 then []
    else (input.take n, pos) :: dumpLoop fuel (input.drop n) (budget - n) (pos + n) w

/-- The dump driver: skip S characters of input (reading past the end of a
short input produces no lines), then window the rest under the character
budget M.  The result is the list of renderdumpline calls (buffer,
position); the position of the first line is S. -/
def dump (input : List Nat) (S M w : Nat) : List (List Nat × Nat) :=
  dumpLoop (input.drop S).length (input.drop S) M S w

/-- The undump driver loop: while a line could be read and the remaining
budget (an int, so it may go negative) is positive, translate the line and
subtract the number of characters it produced; afterwards perform the
flush call.  Returns the bytes written and the total characters output by
translatedumpline calls. -/
def undumpLoop (w : Nat) : List (List Nat) → Int → List Nat × Nat
  | [], _ => (flushBytes, 0)
  | l :: rest, m =>
    if 0 < m then
      let r := translatedumpline l w
      let u := undumpLoop w rest (m - (r.2 : Int))
      (r.1 ++ u.1, r.2 + u.2)
    else (flushBytes, 0)

/-- The undump driver on a list of input lines with budget M. -/
def undump (lines : List (List Nat)) (M : Nat) (w : Nat) : List Nat × Nat :=
  undumpLoop w lines (M : Int)

/-- UTF-8 continuation byte. -/
def contByte (b : Nat) : Bool := 0x80 ≤ b && b ≤ 0xBF

/-- Modelled from the C library: one strict UTF-8 decoding step as done by
fgetwc(3) in a UTF-8 locale.  Returns the codepoint and the number of
bytes consumed, or none on an invalid sequence (overlong forms, surrogates
and values above 0x10FFFF rejected), in which case the stream is left
positioned at the offending byte. -/
def decode1 : List Nat → Option (Nat × Nat)
  | [] => none
  | b :: rest =>
    if b < 0x80 then some (b, 1)
    else if 0xC2 ≤ b ∧ b ≤ 0xDF then
      match rest with
      | c1 :: _ =>
        if contByte c1 then some ((b - 0xC0) * 64 + (c1 - 0x80), 2) else none
      | [] => none
    else if 0xE0 ≤ b ∧ b ≤ 0xEF then
      match rest with
      | c1 :: c2 :: _ =>
        if contByte c1 && contByte c2 &&
            (b != 0xE0 || 0xA0 ≤ c1) && (b != 0xED || c1 ≤ 0x9F) then
          some ((b - 0xE0) * 4096 + (c1 - 0x80) * 64 + (c2 - 0x80), 3)
        else none
      | _ => none
    else if 0xF0 ≤ b ∧ b ≤ 0xF4 then
      match rest with
      | c1 :: c2 :: c3 :: _ =>
        if contByte c1 && contByte c2 && contByte c3 &&
            (b != 0xF0 || 0x90 ≤ c1) && (b != 0xF4 || c1 ≤ 0x8F) then
          some ((b - 0xF0) * 0x40000 + (c1 - 0x80) * 4096 +
                (c2 - 0x80) * 64 + (c3 - 0x80), 4)
        else none
      | _ => none
    else none

/-- The sequence of values nextwchar yields on a single UTF-8 byte source
with acceptbadchars set: each valid sequence becomes its codepoint; at an
invalid sequence one byte is consumed and yielded ORed with the rawbyte
flag. -/
def readcharsAux : Nat → List Nat → List Nat
  | 0, _ => []
  | fuel + 1, bytes =>
    match bytes with
    | [] => []
    | b :: rest =>
      match decode1 (b :: rest) with
      | some (cp, k) => cp :: readcharsAux fuel ((b :: rest).drop k)
      | none => (rawbyte ||| b) :: readcharsAux fuel rest

/-- The character stream read from a UTF-8 byte source with acceptbadchars
set (nextwchar until WEOF). -/
def readchars (bytes : List Nat) : List Nat := readcharsAux bytes.length bytes

/-- The dump text produced for a byte source: default start offset 0 and
unlimited budget (maxinputlen = INT_MAX), one rendered line per
renderdumpline call. -/
def encodeLines (bytes : List Nat) (w : Nat) : List (List Nat) :=
  (dump (readchars bytes) 0 intMax w).map (fun lp => renderdumpline lp.1 lp.2 w)

/-- Feeding the dump output of a byte source back through undump (default
budgets on both sides): the bytes the program writes. -/
def roundtrip (bytes : List Nat) (w : Nat) : List Nat :=
  (undump (encodeLines bytes w) intMax w).1

/-- Modelled from the C library: isspace(3) in the default locale. -/
def isspace (c : Char) : Bool := c == ' ' || (9 ≤ c.toNat && c.toNat ≤ 13)

/-- Value of a digit character in a given base, if it is one. -/
def digitVal (base : Nat) (c : Char) : Option Nat :=
  let v :=
    if 48 ≤ c.toNat ∧ c.toNat ≤ 57 then some (c.toNat - 48)
    else if 65 ≤ c.toNat ∧ c.toNat ≤ 90 then some (c.toNat - 55)
    else if 97 ≤ c.toNat ∧ c.toNat ≤ 122 then some (c.toNat - 87)
    else none
  match v with
  | some d => if d < base then some d else none
  | none => none

/-- Greedy digit run: value, number of digits consumed, rest. -/
def parseDigits (base : Nat) : List Char → Nat → Nat → Nat × Nat × List Char
  | [], acc, nd => (acc, nd, [])
  | c :: rest, acc, nd =>
    match digitVal base c with
    | some d => parseDigits base rest (acc * base + d) (nd + 1)
    | none => (acc, nd, c :: rest)

/-- Leading-whitespace skip of strtol. -/
def dropSpace : List Char → List Char
  | [] => []
  | c :: rest => if isspace c then dropSpace rest else c :: rest

/-- Modelled from the C library: strtol(str, &p, 0) (unbounded result, so
the ERANGE clamp is represented by the value itself; getn rejects
everything above INT_MAX anyway).  Base 0: after optional whitespace and
sign, a 0x/0X prefix selects base 16 (if no hex digit follows, only the
initial 0 is consumed), a leading 0 selects base 8, otherwise base 10.
Returns the value and the unconsumed rest (equal to the whole input when
no conversion could be performed, as strtol then sets *endptr = nptr). -/
def strtol0 (cs : List Char) : Int × List Char :=
  let cs1 := dropSpace cs
  let sign : Bool × List Char :=
    match cs1 with
    | '-' :: r => (true, r)
    | '+' :: r => (false, r)
    | r => (false, r)
  let body : Option (Nat × List Char) :=
    match sign.2 with
    | '0' :: x :: r =>
      if x = 'x' ∨ x = 'X' then
        match parseDigits 16 r 0 0 with
        | (v, nd, rest) => if nd = 0 then some (0, x :: r) else some (v, rest)
      else
        match parseDigits 8 ('0' :: x :: r) 0 0 with
        | (v, _, rest) => some (v, rest)
    | ['0'] => some (0, [])
    | l =>
      match parseDigits 10 l 0 0 with
      | (v, nd, rest) => if nd = 0 then none else some (v, rest)
  match body with
  | none => (0, cs)
  | some (v, rest) => (if sign.1 then -(v : Int) else (v : Int), rest)

/-- getn in the source: read a small non-negative integer from an option
argument, dying (none) when the string is empty, has trailing garbage,
could not be converted at all, is negative, exceeds INT_MAX, or — when
maxval is non-zero — exceeds maxval.  (The NULL-pointer argument case is
not representable with String.) -/
def getn (str : String) (maxval : Nat) : Option Nat :=
  if str.toList = [] then none
  else if (strtol0 str.toList).2 ≠ [] then none
  else if (strtol0 str.toList).1 < 0 then none
  else if (intMax : Int) < (strtol0 str.toList).1 then none
  else if maxval ≠ 0 ∧ (maxval : Int) < (strtol0 str.toList).1 then none
  else some (strtol0 str.toList).1.toNat

/-- The values nextwchar can hand to renderdumpline: a rawbyte-flagged
value or a Unicode codepoint. -/
abbrev validwchar (v : Nat) : Prop := v &&& rawbyte ≠ 0 ∨ v ≤ 0x10FFFF

/-- Follows the words of the spec (windowing property), for comparison
with dump: consecutive windows of w characters except possibly the last,
each paired with the logical position of its first character. -/
def specWindowsAux : Nat → List Nat → Nat → Nat → List (List Nat × Nat)
  | 0, _, _, _ => []
  | _ + 1, [], _, _ => []
  | fuel + 1, x :: xs, pos, w =>
    ((x :: xs).take w, pos) :: specWindowsAux fuel ((x :: xs).drop w) (pos + w) w

/-- Follows the words of the spec: the windows of a character sequence
starting at logical position pos with line width w. -/
def specWindows (xs : List Nat) (pos w : Nat) : List (List Nat × Nat) :=
  specWindowsAux xs.length xs pos w

theorem toHexAux_length_le :
    ∀ fuel n k, 1 ≤ k → n < 16 ^ k → (toHexAux fuel n).length ≤ k := by
  intro fuel
  induction fuel with
  | zero => intro n k hk _; simp [toHexAux]
  | succ f ih =>
    intro n k hk hn
    by_cases h16 : n < 16
    · simp [toHexAux, h16]
      omega
    · have hk2 : 2 ≤ k := by
        rcases Nat.lt_or_ge k 2 with h | h
        · have : k = 1 := by omega
          subst this
          simp at hn
          omega
        · exact h
      have hpow : 16 ^ k = 16 * 16 ^ (k - 1) := by
        conv_lhs => rw [show k = (k - 1) + 1 by omega]
        rw [pow_succ]
        ring
      have hdiv : n / 16 < 16 ^ (k - 1) := by
        apply Nat.div_lt_of_lt_mul
        omega
      have := ih (n / 16) (k - 1) (by omega) hdiv
      simp only [toHexAux, if_neg h16, List.length_append, List.length_cons,
        List.length_nil]
      omega

theorem toHex_length_le (n k : Nat) (hk : 1 ≤ k) (hn : n < 16 ^ k) :
    (toHex n).length ≤ k :=
  toHexAux_length_le (n + 1) n k hk hn

theorem zeroPad_length (w : Nat) (l : List Nat) :
    (zeroPad w l).length = max w l.length := by
  simp [zeroPad]
  omega

theorem spacePad_length (w : Nat) (l : List Nat) :
    (spacePad w l).length = max w l.length := by
  simp [spacePad]
  omega

theorem dumpfield_length (v : Nat) (hv : validwchar v) :
    (dumpfield v).length = 6 := by
  unfold dumpfield
  by_cases h1 : v < 256
  · have h2 : (toHex v).length ≤ 2 :=
      toHex_length_le v 2 (by omega) (by norm_num; omega)
    simp [h1, zeroPad_length]
    omega
  · by_cases h2 : v &&& rawbyte ≠ 0
    · have hb : v &&& 0xFF < 256 := by
        have := Nat.and_le_right (n := v) (m := 0xFF)
        omega
      have h3 : (toHex (v &&& 0xFF)).length ≤ 2 :=
        toHex_length_le _ 2 (by omega) (by norm_num; omega)
      simp [h1, h2, zeroPad_length]
      omega
    · rcases hv with hv | hv
      · exact absurd hv h2
      · have h3 : (toHex v).length ≤ 6 :=
          toHex_length_le v 6 (by omega) (by norm_num; omega)
        simp [h1, h2, spacePad_length]
        omega

theorem flatten_map_length (buf : List Nat) (f : Nat → List Nat) (c : Nat)
    (h : ∀ v ∈ buf, (f v).length = c) :
    ((buf.map f).flatten).length = c * buf.length := by
  induction buf with
  | nil => simp
  | cons x xs ih =>
    have hx : (f x).length = c := h x (by simp)
    have hxs := ih (fun v hv => h v (by simp [hv]))
    simp [hx, hxs, Nat.mul_succ]
    omega

theorem dumpLoop_nil (fuel budget pos w : Nat) :
    dumpLoop fuel [] budget pos w = [] := by
  cases fuel <;> simp [dumpLoop]

theorem dumpLoop_budget_zero (fuel : Nat) (xs : List Nat) (pos w : Nat) :
    dumpLoop fuel xs 0 pos w = [] := by
  cases fuel <;> simp [dumpLoop]

theorem specWindowsAux_nil (fuel pos w : Nat) :
    specWindowsAux fuel [] pos w = [] := by
  cases fuel <;> simp [specWindowsAux]

theorem specWindowsAux_fuel (w : Nat) (hw : 1 ≤ w) :
    ∀ f1 f2 (xs : List Nat) pos, xs.length ≤ f1 → xs.length ≤ f2 →
      specWindowsAux f1 xs pos w = specWindowsAux f2 xs pos w := by
  intro f1
  induction f1 with
  | zero =>
    intro f2 xs pos h1 _
    have hxs : xs = [] := by cases xs <;> simp_all
    subst hxs
    rw [specWindowsAux_nil, specWindowsAux_nil]
  | succ f ih =>
    intro f2 xs pos h1 h2
    cases xs with
    | nil => rw [specWindowsAux_nil, specWindowsAux_nil]
    | cons x t =>
      cases f2 with
      | zero => simp at h2
      | succ g =>
        simp only [specWindowsAux]
        congr 1
        apply ih
        · simp at h1 ⊢
          omega
        · simp at h2 ⊢
          omega

theorem dumpLoop_spec (w : Nat) (hw : 1 ≤ w) :
    ∀ fuel (xs : List Nat) m pos, xs.length ≤ fuel →
      dumpLoop fuel xs m pos w = specWindowsAux fuel (xs.take m) pos w := by
  intro fuel
  induction fuel with
  | zero =>
    intro xs m pos h
    have hxs : xs = [] := by cases xs <;> simp_all
    subst hxs
    simp [dumpLoop, specWindowsAux]
  | succ f ih =>
    intro xs m pos h
    cases xs with
    | nil => rw [dumpLoop_nil, List.take_nil, specWindowsAux_nil]
    | cons x t =>
      cases m with
      | zero => rw [dumpLoop_budget_zero, List.take_zero, specWindowsAux_nil]
      | succ m0 =>
        have hlen : (x :: t).length = t.length + 1 := by simp
        have hn : ¬ min w (min (m0 + 1) (x :: t).length) = 0 := by
          simp
          omega
        have htake : (x :: t).take (m0 + 1) = x :: t.take m0 := by simp
        simp only [dumpLoop, if_neg hn, htake, specWindowsAux]
        have hback : (x :: t.take m0) = (x :: t).take (m0 + 1) := htake.symm
        rw [hback]
        have hhead : (x :: t).take (min w (min (m0 + 1) (x :: t).length)) =
            ((x :: t).take (m0 + 1)).take w := by
          rw [List.take_take, List.take_eq_take]
          simp

        rw [hhead]
        congr 1
        rw [List.drop_take]
        by_cases hcase : w ≤ m0 + 1 ∧ w ≤ (x :: t).length
        · have hnw : min w (min (m0 + 1) (x :: t).length) = w := by omega
          rw [hnw]
          have := ih ((x :: t).drop w) (m0 + 1 - w) (pos + w)
            (by simp at h ⊢; omega)
          exact this
        · have hnlt : min w (min (m0 + 1) (x :: t).length) = min (m0 + 1) (x :: t).length := by
            omega
          rw [hnlt]
          rcases Nat.lt_or_ge (m0 + 1) ((x :: t).length) with hml | hml
          · have hmin : min (m0 + 1) (x :: t).length = m0 + 1 := by omega
            rw [hmin]
            have hb0 : m0 + 1 - (m0 + 1) = 0 := by omega
            rw [hb0, dumpLoop_budget_zero]
            have : ((x :: t).drop w).take (m0 + 1 - w) = [] := by
              have hw' : w > m0 + 1 := by
                simp at hcase
                omega
              have : m0 + 1 - w = 0 := by omega
              rw [this, List.take_zero]
            rw [this, specWindowsAux_nil]
          · have hmin : min (m0 + 1) (x :: t).length = (x :: t).length := by omega
            rw [hmin]
            rw [List.drop_length, dumpLoop_nil]
            have : ((x :: t).drop w).take (m0 + 1 - w) = [] := by
              rcases Nat.lt_or_ge w ((x :: t).length) with hww | hww
              · exfalso
                simp at hcase
                omega
              · rw [List.drop_eq_nil_of_le hww, List.take_nil]
            rw [this, specWindowsAux_nil]

theorem dump_spec (input : List Nat) (S M w : Nat) (hw : 1 ≤ w) :
    dump input S M w = specWindows ((input.drop S).take M) S w := by
  unfold dump specWindows
  rw [dumpLoop_spec w hw _ _ _ _ (le_refl _)]
  apply specWindowsAux_fuel w hw
  · have := List.length_take M (input.drop S)
    omega
  · exact le_refl _

theorem drop6_drop (p : List Nat) (j : Nat) :
    (p.drop 6).drop (6 * j) = p.drop (6 * (j + 1)) := by
  rw [List.drop_drop]
  congr 1
  ring

theorem scanFields_count_le (w : Nat) : ∀ p, (scanFields w p).2 ≤ w := by
  induction w with
  | zero => intro p; simp [scanFields]
  | succ v ih =>
    intro p
    simp only [scanFields]
    cases h : fieldResult p with
    | none => simp
    | some bs =>
      simp only
      have := ih (p.drop 6)
      omega

theorem scanFields_spec (w : Nat) : ∀ p : List Nat,
    ((scanFields w p).2 < w → fieldResult (p.drop (6 * (scanFields w p).2)) = none) ∧
    (∀ j < (scanFields w p).2, fieldResult (p.drop (6 * j)) ≠ none) ∧
    (scanFields w p).1 =
      ((List.range (scanFields w p).2).map
        (fun j => (fieldResult (p.drop (6 * j))).getD [])).flatten := by
  induction w with
  | zero => intro p; simp [scanFields]
  | succ v ih =>
    intro p
    rcases h : fieldResult p with _ | bs
    · refine ⟨?_, ?_, ?_⟩
      · intro _
        have h0 : scanFields (v + 1) p = ([], 0) := by simp [scanFields, h]
        rw [h0]
        simpa using h
      · intro j hj
        simp [scanFields, h] at hj
      · simp [scanFields, h]
    · obtain ⟨ih1, ih2, ih3⟩ := ih (p.drop 6)
      have hstep : scanFields (v + 1) p =
          ((bs ++ (scanFields v (p.drop 6)).1), (scanFields v (p.drop 6)).2 + 1) := by
        simp [scanFields, h]
      refine ⟨?_, ?_, ?_⟩
      · intro hlt
        rw [hstep] at hlt ⊢
        simp only at hlt ⊢
        have := ih1 (by omega)
        rw [drop6_drop] at this
        exact this
      · intro j hj
        rw [hstep] at hj
        simp only at hj
        cases j with
        | zero => simp [h]
        | succ i =>
          have := ih2 i (by omega)
          rw [drop6_drop] at this
          exact this
      · rw [hstep]
        simp only
        rw [List.range_succ_eq_map, List.map_cons, List.flatten_cons, List.map_map]
        have hhead : (fieldResult (p.drop (6 * 0))).getD [] = bs := by
          simp [h]
        have htail :
            List.map ((fun j => (fieldResult (p.drop (6 * j))).getD []) ∘ Nat.succ)
              (List.range (scanFields v (p.drop 6)).2) =
            List.map (fun j => (fieldResult ((p.drop 6).drop (6 * j))).getD [])
              (List.range (scanFields v (p.drop 6)).2) := by
          apply List.map_congr_left
          intro i _
          simp only [Function.comp_apply]
          rw [drop6_drop]
        rw [hhead, htail, ← ih3]

theorem translatedumpline_count_le (line : List Nat) (w : Nat) :
    (translatedumpline line w).2 ≤ w := by
  unfold translatedumpline
  cases h : findSep line with
  | none => simp
  | some p => simpa using scanFields_count_le w p

theorem findSep_of_no_space : ∀ line : List Nat, 32 ∉ line → findSep line = none := by
  intro line
  induction line with
  | nil => intro _; rfl
  | cons c rest ih =>
    intro h
    rw [List.mem_cons] at h
    push_neg at h
    simp only [findSep]
    by_cases h0 : c = 0
    · simp [h0]
    · have hc : ¬ c = 32 := fun hh => h.1 hh.symm
      simp [h0, hc]
      exact ih h.2

theorem undumpLoop_nonpos (w : Nat) (lines : List (List Nat)) (m : Int)
    (hm : m ≤ 0) : (undumpLoop w lines m).2 = 0 := by
  cases lines with
  | nil => rfl
  | cons l rest => simp [undumpLoop, show ¬ (0 : Int) < m by omega]

theorem undumpLoop_count_le (w : Nat) :
    ∀ (lines : List (List Nat)) (m : Int),
      (undumpLoop w lines m).2 ≤ m.toNat + w - 1 := by
  intro lines
  induction lines with
  | nil =>
    intro m
    have h0 : (undumpLoop w [] m).2 = 0 := rfl
    omega
  | cons l rest ih =>
    intro m
    by_cases hm : (0 : Int) < m
    · simp only [undumpLoop, if_pos hm]
      have hn : (translatedumpline l w).2 ≤ w := translatedumpline_count_le l w
      by_cases hz : m - ((translatedumpline l w).2 : Int) ≤ 0
      · have h0 := undumpLoop_nonpos w rest _ hz
        simp only [h0]
        omega
      · have hrec := ih (m - ((translatedumpline l w).2 : Int))
        omega
    · rw [undumpLoop]
      simp only [if_neg hm]
      omega

theorem specWindowsAux_flatten (w : Nat) (hw : 1 ≤ w) :
    ∀ fuel (xs : List Nat) pos, xs.length ≤ fuel →
      ((specWindowsAux fuel xs pos w).map Prod.fst).flatten = xs := by
  intro fuel
  induction fuel with
  | zero =>
    intro xs pos h
    have hxs : xs = [] := by cases xs <;> simp_all
    subst hxs
    simp [specWindowsAux]
  | succ f ih =>
    intro xs pos h
    cases xs with
    | nil => simp [specWindowsAux]
    | cons x t =>
      simp only [specWindowsAux, List.map_cons, List.flatten_cons]
      rw [ih _ _ (by simp at h ⊢; omega)]
      exact List.take_append_drop w (x :: t)

set_option maxRecDepth 10000 in
theorem ballDumpfieldRaw :
    ∀ b, b < 256 → dumpfield (rawbyte ||| b) = [32, 32, 32, 42] ++ zeroPad 2 (toHex b) := by
  decide

set_option maxRecDepth 10000 in
theorem ballGlyphRaw :
    ∀ b, b < 256 → glyph (rawbyte ||| b) = [replacechar, 32] := by
  decide

/-- C1: the claim states that for every valid input and every line width
the undump direction reproduces the dump input byte-for-byte.  The code
violates this: on the single ASCII character "0" (byte 0x30, a perfectly
valid input) with the default line width 8 and default offsets/budgets,
undump writes 0x30 followed by seven null bytes.  The %6X field scan of
translatedumpline skips any amount of whitespace before matching, so on
the short line it runs through the blank alignment padding and repeatedly
parses the hex-digit glyph "0" of the glyph section as a codepoint field.
The reverse operation is documented as converting dump output back to
characters, so this is recorded as a bug in the code; this theorem
evaluates the full pipeline at the failing input. -/
theorem c1_roundtrip_failure :
    roundtrip [0x30] 8 = [0x30, 0, 0, 0, 0, 0, 0, 0] ∧
    roundtrip [0x30] 8 ≠ [0x30] := by decide

/-- C2 counterexample: the claim asserts decode(encode(input)) = input for
every input stream containing an invalid byte under tolerance.  The input
bytes 0x30 0xFF (a valid character followed by an invalid byte) refute it:
the raw byte itself round-trips, but the field scan then consumes the
hex-digit glyph of the short line, appending six spurious null bytes. -/
theorem c2_roundtrip_tolerant_counterexample :
    roundtrip [0x30, 0xFF] 8 = [0x30, 0xFF, 0, 0, 0, 0, 0, 0] ∧
    roundtrip [0x30, 0xFF] 8 ≠ [0x30, 0xFF] := by decide

/-- C2 (amended): an invalid byte read under tolerance is rendered as the
6-column field "   *%02X"; parsing such a field back writes the byte
verbatim, spliced into the last byte position of the null-encoding
sequence of the encoder, and this differs from the encoding of the
codepoint of the same value (0xFF encodes as C3 BF). -/
theorem c2_rawbyte_field (b : Nat) (hb : b < 256) :
    dumpfield (rawbyte ||| b) = [32, 32, 32, 42] ++ zeroPad 2 (toHex b) ∧
    rawSplice b = [b] ∧
    translatedumpline (wstr "00000000:    *FF" ++ [10]) 8 = ([0xFF], 1) ∧
    wcrtombOrReplace 0xFF = [0xC3, 0xBF] := by
  refine ⟨?_, rfl, by decide, by decide⟩
  exact ballDumpfieldRaw b hb

theorem c2_rawbyte_field_witness :
    dumpfield (rawbyte ||| 0xFF) = [32, 32, 32, 42] ++ zeroPad 2 (toHex 0xFF) :=
  (c2_rawbyte_field 0xFF (by decide)).1

/-- C3: the encode driver covers exactly min(M, max(0, L - S)) characters
past the start offset, in consecutive windows of line width w (except
possibly the last), each line addressed with the logical position of its
first character; this is stated as equality with the windowing function
written from the spec, plus the coverage equation, plus the concrete
scenario S = 2, M = 1 on a 5-character input. -/
theorem c3_windowing (input : List Nat) (S M w : Nat) (hw : 1 ≤ w) :
    dump input S M w = specWindows ((input.drop S).take M) S w ∧
    ((dump input S M w).map Prod.fst).flatten = (input.drop S).take M ∧
    dump [100, 101, 102, 103, 104] 2 1 8 = [([102], 2)] := by
  have h1 := dump_spec input S M w hw
  refine ⟨h1, ?_, by decide⟩
  rw [h1]
  exact specWindowsAux_flatten w hw _ _ S (le_refl _)

theorem c3_windowing_witness :
    dump [100, 101, 102, 103, 104] 2 1 8 = [([102], 2)] :=
  (c3_windowing [] 0 0 1 (by decide)).2.2

/-- C4: every hex field is exactly 6 columns, in exactly one of the three
shapes "    %02X" (codepoint below 256), "   *%02X" (raw byte), "%6X"
(otherwise); the ASCII input "Hi!" with line width 8 produces exactly the
documented line. -/
theorem c4_field_shapes :
    (∀ v : Nat, validwchar v →
      (dumpfield v).length = 6 ∧
      (v < 256 → dumpfield v = [32, 32, 32, 32] ++ zeroPad 2 (toHex v)) ∧
      (256 ≤ v → v &&& rawbyte ≠ 0 →
        dumpfield v = [32, 32, 32, 42] ++ zeroPad 2 (toHex (v &&& 0xFF))) ∧
      (256 ≤ v → v &&& rawbyte = 0 → dumpfield v = spacePad 6 (toHex v))) ∧
    renderdumpline [0x48, 0x69, 0x21] 0 8 =
      wstr "00000000:     48    69    21" ++ List.replicate 35 32 ++
        wstr "H i ! " ++ [10] := by
  constructor
  · intro v hv
    refine ⟨dumpfield_length v hv, ?_, ?_, ?_⟩
    · intro h
      simp [dumpfield, h]
    · intro h1 h2
      simp [dumpfield, show ¬ v < 256 by omega, h2]
    · intro h1 h2
      simp [dumpfield, show ¬ v < 256 by omega, h2]
  · decide

theorem c4_field_shapes_witness : (dumpfield 0x48).length = 6 :=
  (c4_field_shapes.1 0x48 (by decide)).1

/-- C5: on a rendered line holding k characters (0 < k ≤ w), exactly
6 * (w - k) + 5 spaces are printed between the last hex field and the
glyph section, so the glyph section always begins at character column
15 + 6 * w regardless of k. -/
theorem c5_alignment (buf : List Nat) (pos w : Nat)
    (_hne : buf ≠ []) (hlen : buf.length ≤ w) (hpos : pos < 2 ^ 31)
    (hval : ∀ v ∈ buf, validwchar v) :
    padWidth buf.length w = 6 * (w - buf.length) + 5 ∧
    (zeroPad 8 (toHex pos) ++ [58, 32] ++ (buf.map dumpfield).flatten).length +
      padWidth buf.length w = 15 + 6 * w ∧
    renderdumpline buf pos w =
      (zeroPad 8 (toHex pos) ++ [58, 32] ++ (buf.map dumpfield).flatten) ++
        (List.replicate (6 * (w - buf.length) + 5) 32 ++
          ((buf.map glyph).flatten ++ [10])) := by
  have hpad : padWidth buf.length w = 6 * (w - buf.length) + 5 := by
    unfold padWidth
    omega
  have haddr : (zeroPad 8 (toHex pos)).length = 8 := by
    rw [zeroPad_length]
    have h16 : pos < 16 ^ 8 := by
      norm_num
      norm_num at hpos
      omega
    have := toHex_length_le pos 8 (by omega) h16
    omega
  have hfields : ((buf.map dumpfield).flatten).length = 6 * buf.length :=
    flatten_map_length buf dumpfield 6 (fun v hv => dumpfield_length v (hval v hv))
  refine ⟨hpad, ?_, ?_⟩
  · simp only [List.length_append, haddr, hfields, List.length_cons, List.length_nil]
    omega
  · unfold renderdumpline
    rw [hpad]
    simp [List.append_assoc]

theorem c5_alignment_witness : padWidth 1 8 = 6 * (8 - 1) + 5 :=
  (c5_alignment [72] 0 8 (by decide) (by decide) (by decide) (by decide)).1

/-- C6 counterexample: the claim asserts that the blank padding and the
glyph section of a short line are never consumed as data.  On the dump
line rendered for the single character "0" (one hex field only), the scan
decodes 8 fields, 7 of them manufactured from the padding and the
hex-digit glyph. -/
theorem c6_glyph_consumed_counterexample :
    (translatedumpline (renderdumpline [0x30] 0 8) 8).2 = 8 ∧
    (translatedumpline (renderdumpline [0x30] 0 8) 8).1 =
      [0x30, 0, 0, 0, 0, 0, 0, 0] ∧
    (translatedumpline (renderdumpline [0x30] 0 8) 8).2 ≠ 1 := by decide

/-- C6 (amended): fields are scanned left to right in fixed 6-character
steps after the address separator, at most w of them; the first position
where neither the codepoint pattern nor the raw-byte pattern matches stops
the scan, and the parser returns exactly the number of fields it decoded
and wrote.  (Because the patterns skip any run of leading whitespace, the
padding of a short line does not itself stop the scan when hex-digit or
asterisk glyph text follows it, which is what the counterexample shows.) -/
theorem c6_field_scan (line : List Nat) (w : Nat) :
    (translatedumpline line w).2 ≤ w ∧
    (findSep line = none → translatedumpline line w = ([], 0)) ∧
    (∀ p, findSep line = some p →
      ((translatedumpline line w).2 < w →
        fieldResult (p.drop (6 * (translatedumpline line w).2)) = none) ∧
      (∀ j < (translatedumpline line w).2, fieldResult (p.drop (6 * j)) ≠ none) ∧
      (translatedumpline line w).1 =
        ((List.range (translatedumpline line w).2).map
          (fun j => (fieldResult (p.drop (6 * j))).getD [])).flatten) := by
  refine ⟨translatedumpline_count_le line w, ?_, ?_⟩
  · intro h
    unfold translatedumpline
    rw [h]
  · intro p hp
    have ht : translatedumpline line w = scanFields w p := by
      unfold translatedumpline
      rw [hp]
    rw [ht]
    exact scanFields_spec w p

theorem c6_field_scan_witness :
    (translatedumpline [48, 58, 32, 52, 49, 10] 8).1 =
      ((List.range (translatedumpline [48, 58, 32, 52, 49, 10] 8).2).map
        (fun j => (fieldResult (([52, 49, 10] : List Nat).drop (6 * j))).getD [])).flatten :=
  ((c6_field_scan [48, 58, 32, 52, 49, 10] 8).2.2 [52, 49, 10] (by decide)).2.2

/-- C7: a line that is empty or has no space separator makes the parser
return 0 and write nothing (the shift state, trivial in the UTF-8 model,
is untouched), rather than erroring. -/
theorem c7_no_separator (line : List Nat) (w : Nat) (h : 32 ∉ line) :
    translatedumpline line w = ([], 0) := by
  unfold translatedumpline
  rw [findSep_of_no_space line h]

theorem c7_no_separator_witness : translatedumpline [10] 8 = ([], 0) :=
  c7_no_separator [10] 8 (by decide)

/-- C8 counterexample: the claim asserts that a raw byte is rendered in
the glyph section using its numeric byte value as the codepoint for
display-width purposes (so raw byte 0x41, whose byte value has width 1,
would print the character itself).  The code passes the flagged value to
the width check, so the glyph is the replacement character instead. -/
theorem c8_rawbyte_glyph_counterexample :
    glyph (rawbyte ||| 0x41) = [replacechar, 32] ∧
    glyph (rawbyte ||| 0x41) ≠ [0x41, 32] ∧
    wcwidth 0x41 = 1 := by decide

/-- C8 (amended): every raw-byte value is rendered in the glyph section as
the replacement character followed by one space: the width check receives
the rawbyte-flagged value, which is not a printable codepoint, and the
flagged value is not below 0x20, so the replacement character (never a
control picture, never the byte itself) is printed. -/
theorem c8_rawbyte_glyph (b : Nat) (hb : b < 256) :
    glyph (rawbyte ||| b) = [replacechar, 32] :=
  ballGlyphRaw b hb

theorem c8_rawbyte_glyph_witness : glyph (rawbyte ||| 0x05) = [replacechar, 32] :=
  c8_rawbyte_glyph 0x05 (by decide)

/-- C9 counterexample: the claim asserts every accepted count value is
positive; getn accepts the string "0" with value 0. -/
theorem c9_count_positive_counterexample :
    ¬ ∀ (s : String) (n : Nat), getn s 255 = some n → 0 < n := by
  intro h
  have := h "0" 0 (by decide)
  omega

/-- C9 (amended): a numeric option string that is not a valid number, or
whose value exceeds the stated maximum, makes getn die (none); every
accepted count value is a non-negative integer at most 255 (zero is
accepted); the default line width is 8. -/
theorem c9_getn_bounds :
    (∀ (s : String) (n : Nat), getn s 255 = some n → n ≤ 255) ∧
    getn "0" 255 = some 0 ∧
    getn "8" 255 = some 8 ∧
    getn "abc" 255 = none ∧
    getn "-1" 255 = none ∧
    getn "256" 255 = none ∧
    getn "2147483648" 0 = none ∧
    linesizeDefault = 8 := by
  refine ⟨?_, by decide, by decide, by decide, by decide, by decide, by decide, rfl⟩
  intro s n h
  unfold getn at h
  split at h
  · exact absurd h (by simp)
  · split at h
    · exact absurd h (by simp)
    · split at h
      · exact absurd h (by simp)
      · split at h
        · exact absurd h (by simp)
        · split at h
          · exact absurd h (by simp)
          · rename_i h1 h2 h3 h4 h5
            simp only [Option.some.injEq] at h
            push_neg at h5
            have h6 := h5 (by norm_num)
            omega

theorem c9_getn_bounds_witness : (8 : Nat) ≤ 255 :=
  c9_getn_bounds.1 "8" 8 (by decide)

/-- C10: in the undump direction the budget is checked only between lines:
a line is parsed whenever the remaining budget is positive and all of its
fields are written, so the total number of characters written is at most
M + w - 1 and can strictly exceed M (here: budget 1, a full 8-field line,
8 characters written). -/
theorem c10_budget_semantics :
    (∀ (w : Nat) (lines : List (List Nat)) (M : Nat),
      (undump lines M w).2 ≤ M + w - 1) ∧
    (∀ (w : Nat) (l : List Nat) (rest : List (List Nat)) (m : Int), 0 < m →
      undumpLoop w (l :: rest) m =
        ((translatedumpline l w).1 ++
          (undumpLoop w rest (m - ((translatedumpline l w).2 : Int))).1,
         (translatedumpline l w).2 +
          (undumpLoop w rest (m - ((translatedumpline l w).2 : Int))).2)) ∧
    (undump [renderdumpline (List.replicate 8 48) 0 8] 1 8).2 = 8 ∧
    1 < (undump [renderdumpline (List.replicate 8 48) 0 8] 1 8).2 := by
  refine ⟨?_, ?_, by decide, by decide⟩
  · intro w lines M
    have := undumpLoop_count_le w lines (M : Int)
    unfold undump
    omega
  · intro w l rest m hm
    simp [undumpLoop, hm]

theorem c10_budget_semantics_witness :
    undumpLoop 8 [[10]] 1 =
      ((translatedumpline [10] 8).1 ++
        (undumpLoop 8 ([] : List (List Nat)) (1 - ((translatedumpline [10] 8).2 : Int))).1,
       (translatedumpline [10] 8).2 +
        (undumpLoop 8 ([] : List (List Nat)) (1 - ((translatedumpline [10] 8).2 : Int))).2) :=
  c10_budget_semantics.2.1 8 [10] [] 1 (by decide)

end Chd
